import Mathlib

/-!
Verification of the retrieval core of the FinSight RAG backend
(src/backend/controllers/documentController.js and
src/backend/routes/ragRoutes.js), as a shallow embedding: JS strings are
lists of characters, fallible calls return Except values, and the
Elasticsearch-side behaviour that the repository only configures is
modelled from the specification where noted.
-/

namespace FinSight

/-! ## Chunker: chunkText (documentController.js lines 30-52) -/

/-- The sentence-terminator class of the regex split in chunkText. -/
def isTerminator (c : Char) : Bool := c = '.' || c = '!' || c = '?'

/-- Whitespace as JS trim sees it (for the ASCII inputs of this file,
Char.isWhitespace and the JS set agree). -/
def isSpaceChar (c : Char) : Bool := c.isWhitespace

/-- JS String.prototype.split generalised to a character predicate: cut at
every matching character, keeping empty fragments.  The source splits on
the regex /[.!?]+/, which merges runs of terminators; a fragment between
two adjacent terminators is empty, so after the whitespace filter of
chunkText the per-character split and the run-merging split agree. -/
def splitOnPred (p : Char → Bool) : List Char → List (List Char)
  | [] => [[]]
  | c :: rest =>
    match splitOnPred p rest with
    | [] => [[]]
    | h :: t => if p c then [] :: h :: t else (c :: h) :: t

/-- JS String.prototype.trim: drop whitespace from both ends. -/
def trimChars (s : List Char) : List Char :=
  ((s.dropWhile isSpaceChar).reverse.dropWhile isSpaceChar).reverse

/-- JS split(' '): split on the single space character, keeping empties. -/
def splitOnSpace : List Char → List (List Char) :=
  splitOnPred (fun c => c = ' ')

/-- JS Array.prototype.join(' '). -/
def joinSpace : List (List Char) → List Char
  | [] => []
  | [w] => w
  | w :: ws => w ++ ' ' :: joinSpace ws

/-- JS Array.prototype.slice(-k): for k ≥ 1 the trailing min(k, length)
elements; slice(-0) is slice(0), the whole array. -/
def jsSliceLast (k : Nat) (l : List (List Char)) : List (List Char) :=
  if k = 0 then l else l.drop (l.length - k)

/-- The trailing k words as the spec reads "the trailing overlap words":
the last min(k, length) elements, so none at all when k = 0. -/
def takeLastWords (k : Nat) (l : List (List Char)) : List (List Char) :=
  l.drop (l.length - k)

/-- The sentence loop of chunkText.  The buffer-closing branch seeds the
next buffer with jsSliceLast overlap of the closed buffer's words, joined
by spaces, then a space and the new sentence; the other branch appends the
sentence and a trailing dot-space. -/
def chunkLoop (chunkSize overlap : Nat) :
    List (List Char) → List Char → List (List Char)
  | [], currentChunk =>
    if 0 < (trimChars currentChunk).length then [trimChars currentChunk] else []
  | sentence :: rest, currentChunk =>
    if chunkSize < (currentChunk ++ sentence).length ∧ 0 < currentChunk.length then
      trimChars currentChunk ::
        chunkLoop chunkSize overlap rest
          (joinSpace (jsSliceLast overlap (splitOnSpace currentChunk)) ++
            ' ' :: sentence)
    else
      chunkLoop chunkSize overlap rest (currentChunk ++ sentence ++ ['.', ' '])

/-- chunkText from documentController.js: split on sentence terminators,
drop whitespace-only fragments, then run the accumulation loop on an empty
buffer. -/
def chunkText (text : List Char) (chunkSize overlap : Nat) : List (List Char) :=
  chunkLoop chunkSize overlap
    ((splitOnPred isTerminator text).filter (fun s => 0 < (trimChars s).length)) []

/-- Default chunkSize of chunkText in the source. -/
def defaultChunkSize : Nat := 500

/-- Default overlap of chunkText in the source. -/
def defaultOverlap : Nat := 50

/-- chunkText called with both defaulted parameters, as the upload route does. -/
def chunkTextDefault (text : List Char) : List (List Char) :=
  chunkText text defaultChunkSize defaultOverlap

/-- The chunker as the spec's words describe it: identical to chunkLoop
except that the seed after closing a chunk is exactly the trailing
`overlap` words of the closed buffer (takeLastWords), so zero words when
overlap = 0. -/
def chunkLoopSpec (chunkSize overlap : Nat) :
    List (List Char) → List Char → List (List Char)
  | [], currentChunk =>
    if 0 < (trimChars currentChunk).length then [trimChars currentChunk] else []
  | sentence :: rest, currentChunk =>
    if chunkSize < (currentChunk ++ sentence).length ∧ 0 < currentChunk.length then
      trimChars currentChunk ::
        chunkLoopSpec chunkSize overlap rest
          (joinSpace (takeLastWords overlap (splitOnSpace currentChunk)) ++
            ' ' :: sentence)
    else
      chunkLoopSpec chunkSize overlap rest (currentChunk ++ sentence ++ ['.', ' '])

/-- chunkText as the spec's words describe it. -/
def chunkTextSpec (text : List Char) (chunkSize overlap : Nat) : List (List Char) :=
  chunkLoopSpec chunkSize overlap
    ((splitOnPred isTerminator text).filter (fun s => 0 < (trimChars s).length)) []

/-- The chunker with the seed the code actually computes at overlap = 0:
the entire word list of the just-closed buffer. -/
def chunkLoopFullCarry (chunkSize : Nat) :
    List (List Char) → List Char → List (List Char)
  | [], currentChunk =>
    if 0 < (trimChars currentChunk).length then [trimChars currentChunk] else []
  | sentence :: rest, currentChunk =>
    if chunkSize < (currentChunk ++ sentence).length ∧ 0 < currentChunk.length then
      trimChars currentChunk ::
        chunkLoopFullCarry chunkSize rest
          (joinSpace (splitOnSpace currentChunk) ++ ' ' :: sentence)
    else
      chunkLoopFullCarry chunkSize rest (currentChunk ++ sentence ++ ['.', ' '])

/-- chunkText restated with the whole-buffer carry-over. -/
def chunkTextFullCarry (text : List Char) (chunkSize : Nat) : List (List Char) :=
  chunkLoopFullCarry chunkSize
    ((splitOnPred isTerminator text).filter (fun s => 0 < (trimChars s).length)) []

lemma jsSliceLast_eq_takeLastWords (k : Nat) (hk : 1 ≤ k) (l : List (List Char)) :
    jsSliceLast k l = takeLastWords k l := by
  unfold jsSliceLast takeLastWords
  rw [if_neg (Nat.one_le_iff_ne_zero.mp hk)]

lemma chunkLoop_eq_spec (chunkSize overlap : Nat) (hk : 1 ≤ overlap) :
    ∀ (sentences : List (List Char)) (buf : List Char),
      chunkLoop chunkSize overlap sentences buf =
        chunkLoopSpec chunkSize overlap sentences buf := by
  intro sentences
  induction sentences with
  | nil => intro buf; rfl
  | cons s rest ih =>
    intro buf
    unfold chunkLoop chunkLoopSpec
    by_cases h : chunkSize < (buf ++ s).length ∧ 0 < buf.length
    · rw [if_pos h, if_pos h, jsSliceLast_eq_takeLastWords overlap hk, ih]
    · rw [if_neg h, if_neg h, ih]

lemma chunkLoop_zero_eq_fullCarry (chunkSize : Nat) :
    ∀ (sentences : List (List Char)) (buf : List Char),
      chunkLoop chunkSize 0 sentences buf =
        chunkLoopFullCarry chunkSize sentences buf := by
  intro sentences
  induction sentences with
  | nil => intro buf; rfl
  | cons s rest ih =>
    intro buf
    unfold chunkLoop chunkLoopFullCarry
    by_cases h : chunkSize < (buf ++ s).length ∧ 0 < buf.length
    · have hseed : jsSliceLast 0 (splitOnSpace buf) = splitOnSpace buf := by
        unfold jsSliceLast; rw [if_pos rfl]
      rw [if_pos h, if_pos h, hseed, ih]
    · rw [if_neg h, if_neg h, ih]

/-- Concrete text on which the code's overlap-0 carry-over is visible. -/
def exTextA : List Char := ['a', 'a', 'a', 'a', '.', ' ', 'b', 'b', 'b', 'b', '.']

/-- A second concrete text for the implicit overlap-0 claim. -/
def exTextB : List Char := ['c', 'c', ' ', 'd', 'd', '.', ' ', 'e', 'e', '.']

lemma exists_not_of_dropWhile (p : Char → Bool) :
    ∀ l : List Char, (∃ c ∈ l, p c = false) →
      ∃ c ∈ l.dropWhile p, p c = false := by
  intro l
  induction l with
  | nil => rintro ⟨c, hc, _⟩; cases hc
  | cons x xs ih =>
    rintro ⟨c, hc, hpc⟩
    by_cases hx : p x
    · rw [List.dropWhile_cons_of_pos hx]
      rcases List.mem_cons.mp hc with rfl | hmem
      · rw [hx] at hpc; cases hpc
      · exact ih ⟨c, hmem, hpc⟩
    · rw [List.dropWhile_cons_of_neg hx]
      exact ⟨c, hc, hpc⟩

lemma trimChars_length_pos (l : List Char)
    (h : ∃ c ∈ l, isSpaceChar c = false) : 0 < (trimChars l).length := by
  unfold trimChars
  have h1 := exists_not_of_dropWhile isSpaceChar l h
  have h2 : ∃ c ∈ (l.dropWhile isSpaceChar).reverse, isSpaceChar c = false := by
    rcases h1 with ⟨c, hc, hpc⟩
    exact ⟨c, List.mem_reverse.mpr hc, hpc⟩
  have h3 := exists_not_of_dropWhile isSpaceChar _ h2
  rcases h3 with ⟨c, hc, _⟩
  have : ((l.dropWhile isSpaceChar).reverse.dropWhile isSpaceChar) ≠ [] := by
    intro hnil; rw [hnil] at hc; cases hc
  simpa [List.length_pos] using this

lemma mem_splitOnPred (p : Char → Bool) :
    ∀ (l : List Char) (c : Char), c ∈ l → p c = false →
      ∃ frag ∈ splitOnPred p l, c ∈ frag := by
  intro l
  induction l with
  | nil => intro c hc; cases hc
  | cons x xs ih =>
    intro c hc hpc
    rcases hsp : splitOnPred p xs with _ | ⟨h, t⟩
    · cases (by simpa [hsp] using splitOnPred_ne_nil p xs : False)
    · rcases List.mem_cons.mp hc with rfl | hmem
      · have hx : p c = false := hpc
        simp only [splitOnPred, hsp]
        rw [if_neg (by simp [hx])]
        exact ⟨c :: h, List.mem_cons_self _ _, List.mem_cons_self _ _⟩
      · rcases ih c hmem hpc with ⟨frag, hfrag, hcfrag⟩
        rw [hsp] at hfrag
        simp only [splitOnPred, hsp]
        by_cases hx : p x
        · rw [if_pos hx]
          exact ⟨frag, List.mem_cons_of_mem _ hfrag, hcfrag⟩
        · rw [if_neg hx]
          rcases List.mem_cons.mp hfrag with rfl | hft
          · exact ⟨x :: frag, List.mem_cons_self _ _, List.mem_cons_of_mem _ hcfrag⟩
          · exact ⟨frag, List.mem_cons_of_mem _ hft, hcfrag⟩
where
  splitOnPred_ne_nil (p : Char → Bool) : ∀ l : List Char, splitOnPred p l ≠ [] := by
    intro l
    cases l with
    | nil => simp [splitOnPred]
    | cons x xs =>
      unfold splitOnPred
      rcases splitOnPred p xs with _ | ⟨h, t⟩
      · simp
      · by_cases hx : p x <;> simp [hx]

lemma chunkLoop_length_pos (chunkSize overlap : Nat) :
    ∀ (sentences : List (List Char)) (buf : List Char), sentences ≠ [] →
      0 < (chunkLoop chunkSize overlap sentences buf).length := by
  intro sentences
  induction sentences with
  | nil => intro _ h; cases h rfl
  | cons s rest ih =>
    intro buf _
    unfold chunkLoop
    by_cases h : chunkSize < (buf ++ s).length ∧ 0 < buf.length
    · rw [if_pos h]; simp
    · rw [if_neg h]
      rcases hrest : rest with _ | ⟨r, rs⟩
      · unfold chunkLoop
        have hdot : (0 : Nat) <
            (trimChars (buf ++ s ++ ['.', ' '])).length := by
          apply trimChars_length_pos
          exact ⟨'.', by simp, by decide⟩
        rw [if_pos hdot]; simp
      · rw [← hrest]
        exact ih (buf ++ s ++ ['.', ' ']) (by rw [hrest]; simp)

/-- C1: the chunker splits on sentence terminators, discards whitespace-only
fragments and greedily accumulates sentences, but the claim's seeding rule
("exactly the trailing overlap words") fails at overlap = 0, where
slice(-0) carries the whole closed buffer.  Counterexample: on the text
"aaaa. bbbb." with maxSize 6 and overlap 0 the code carries the words of
the closed chunk into the next buffer, while the claimed seeding would
carry none, so the produced chunk lists differ. -/
theorem chunkText_overlap_zero_differs_from_spec :
    chunkText exTextA 6 0 ≠ chunkTextSpec exTextA 6 0 := by decide

/-- C1 (amended): for every overlap ≥ 1 chunkText agrees with the spec's
description of the chunker (terminator split, whitespace-only fragments
discarded, greedy accumulation, trailing-overlap-words carry-over, final
buffer flush), and the defaults are maxSize = 500 and overlap = 50. -/
theorem chunkText_eq_spec_of_overlap_pos
    (text : List Char) (chunkSize overlap : Nat) (h : 1 ≤ overlap) :
    chunkText text chunkSize overlap = chunkTextSpec text chunkSize overlap ∧
    chunkTextDefault text = chunkText text 500 50 ∧
    defaultChunkSize = 500 ∧ defaultOverlap = 50 := by
  refine ⟨?_, rfl, rfl, rfl⟩
  unfold chunkText chunkTextSpec
  exact chunkLoop_eq_spec chunkSize overlap h _ _

/-- Witness for the amended C1 at a concrete input. -/
theorem chunkText_eq_spec_of_overlap_pos_witness :
    1 ≤ 1 ∧ chunkText exTextA 6 1 = chunkTextSpec exTextA 6 1 :=
  ⟨by decide, (chunkText_eq_spec_of_overlap_pos exTextA 6 1 (by decide)).1⟩

/-- C7: "for every non-empty text chunkText returns at least one chunk"
fails on the code: the non-empty text "." splits into fragments that are
all whitespace-only, so chunkText returns no chunk at all. -/
theorem chunkText_dot_empty :
    chunkText ['.'] defaultChunkSize defaultOverlap = [] ∧
    (['.'] : List Char) ≠ [] := by decide

/-- C7 (amended): for every maxSize and overlap, chunkText returns at
least one chunk whenever the text contains at least one character that is
neither whitespace nor a sentence terminator. -/
theorem chunkText_length_pos
    (text : List Char) (chunkSize overlap : Nat) (c : Char)
    (hc : c ∈ text) (hs : isSpaceChar c = false) (ht : isTerminator c = false) :
    0 < (chunkText text chunkSize overlap).length := by
  unfold chunkText
  apply chunkLoop_length_pos
  rcases mem_splitOnPred isTerminator text c hc ht with ⟨frag, hfrag, hcfrag⟩
  have hkeep : 0 < (trimChars frag).length :=
    trimChars_length_pos frag ⟨c, hcfrag, hs⟩
  intro hnil
  have : frag ∈ (splitOnPred isTerminator text).filter
      (fun s => 0 < (trimChars s).length) :=
    List.mem_filter.mpr ⟨hfrag, by simpa using hkeep⟩
  rw [hnil] at this
  cases this

/-- Witness for the amended C7 at a concrete input. -/
theorem chunkText_length_pos_witness :
    'a' ∈ (['a'] : List Char) ∧ isSpaceChar 'a' = false ∧
    isTerminator 'a' = false ∧ 0 < (chunkText ['a'] 500 50).length :=
  ⟨by decide, by decide, by decide,
    chunkText_length_pos ['a'] 500 50 'a' (by decide) (by decide) (by decide)⟩

/-- C10: at overlap = 0, chunkText seeds each new buffer with the entire
word list of the just-closed buffer (slice(-0) is the whole array), not
with zero words: it coincides with the whole-buffer-carry chunker on every
input, and on a concrete input it differs from the zero-word-carry reading
of the spec. -/
theorem chunkText_overlap_zero_full_carry :
    (∀ (text : List Char) (chunkSize : Nat),
      chunkText text chunkSize 0 = chunkTextFullCarry text chunkSize) ∧
    chunkText exTextB 5 0 ≠ chunkTextSpec exTextB 5 0 := by
  constructor
  · intro text chunkSize
    unfold chunkText chunkTextFullCarry
    exact chunkLoop_zero_eq_fullCarry chunkSize _ _
  · decide

/-! ## Data model and errors -/

/-- Vector dimension of the documents index: the dense_vector mapping in
initializeElasticsearch is created with dims 384 (all-MiniLM-L6-v2). -/
def embeddingDims : Nat := 384

/-- Errors surfaced by the vector store. -/
inductive IndexError
  | dimensionMismatch
  | unavailable
deriving DecidableEq

/-- Errors of the embedding call: a non-success HTTP status, or a response
body that fails to parse as JSON. -/
inductive EmbeddingServiceError
  | httpError (status : Nat)
  | jsonError (msg : String)
deriving DecidableEq

/-- An error reaching a pipeline caller: from the embedder or from the index. -/
inductive PipelineError
  | embedErr (e : EmbeddingServiceError)
  | indexErr (e : IndexError)
deriving DecidableEq

/-- An entry of the documents index, as indexDocument stores it:
content, embedding vector, filename, chunk ordinal, under id
filename_chunk_ordinal (the timestamp field plays no role in any claim). -/
structure IndexedEntry where
  id : String
  vector : List ℝ
  content : List Char
  filename : String
  chunk_id : Nat

/-- A hit as searchSimilarChunks returns it: content, filename, score. -/
structure SearchResult where
  content : List Char
  filename : String
  score : ℝ

/-! ## Cosine scoring (script_score source:
"cosineSimilarity(params.queryVector, 'embedding') + 1.0") -/

/-- Dot product of two real vectors, over the common prefix. -/
def dotProduct : List ℝ → List ℝ → ℝ
  | x :: a, y :: b => x * y + dotProduct a b
  | _, _ => 0

/-- Modelled from the spec: cosine similarity, the dot product divided by
the product of the magnitudes; a zero-magnitude operand makes the
denominator zero and the quotient is then 0, the spec's documented
fallback before the +1 shift. -/
noncomputable def cosineSimilarity (a b : List ℝ) : ℝ :=
  dotProduct a b / (Real.sqrt (dotProduct a a) * Real.sqrt (dotProduct b b))

lemma dotProduct_self_nonneg : ∀ a : List ℝ, 0 ≤ dotProduct a a := by
  intro a
  induction a with
  | nil => simp [dotProduct]
  | cons x a ih =>
    have hx : 0 ≤ x * x := mul_self_nonneg x
    calc (0:ℝ) ≤ x * x + dotProduct a a := by linarith
    _ = dotProduct (x :: a) (x :: a) := rfl

lemma dotProduct_nil_right : ∀ a : List ℝ, dotProduct a [] = 0 := by
  intro a; cases a <;> rfl

/-- Scalar step of the Cauchy-Schwarz induction. -/
lemma cauchy_schwarz_step (x y A B S : ℝ) (hA : 0 ≤ A) (hB : 0 ≤ B)
    (hS : S ^ 2 ≤ A * B) :
    (x * y + S) ^ 2 ≤ (x * x + A) * (y * y + B) := by
  rcases eq_or_lt_of_le hA with hA0 | hApos
  · have hAB : A * B ≤ 0 := by nlinarith
    have hS2 : S ^ 2 = 0 := le_antisymm (le_trans hS hAB) (sq_nonneg S)
    have hS0 : S = 0 := by
      have := sq_eq_zero_iff.mp hS2
      exact this
    rw [hS0, ← hA0]
    nlinarith [mul_nonneg (mul_self_nonneg x) hB]
  · have key : A * ((x * x + A) * (y * y + B)) - A * ((x * y + S) ^ 2) =
        (A * y - S * x) ^ 2 + (A * B - S ^ 2) * (x * x + A) := by ring
    have h1 : 0 ≤ (A * y - S * x) ^ 2 := sq_nonneg _
    have h2 : 0 ≤ (A * B - S ^ 2) * (x * x + A) := by
      apply mul_nonneg
      · linarith
      · nlinarith [mul_self_nonneg x]
    have hmul : A * ((x * y + S) ^ 2) ≤ A * ((x * x + A) * (y * y + B)) := by
      linarith
    exact le_of_mul_le_mul_left hmul hApos

/-- Cauchy-Schwarz for list dot products, squared form. -/
lemma dotProduct_sq_le :
    ∀ a b : List ℝ, dotProduct a b ^ 2 ≤ dotProduct a a * dotProduct b b := by
  intro a
  induction a with
  | nil =>
    intro b
    simp [dotProduct, mul_nonneg (dotProduct_self_nonneg []) (dotProduct_self_nonneg b)]
  | cons x a ih =>
    intro b
    cases b with
    | nil =>
      rw [dotProduct_nil_right, dotProduct_nil_right]
      simp
    | cons y b =>
      show (x * y + dotProduct a b) ^ 2 ≤
        (x * x + dotProduct a a) * (y * y + dotProduct b b)
      exact cauchy_schwarz_step x y _ _ _
        (dotProduct_self_nonneg a) (dotProduct_self_nonneg b) (ih b)

/-- The shifted score is always inside [0, 2]. -/
lemma cosineSimilarity_shift_bounds (a b : List ℝ) :
    0 ≤ cosineSimilarity a b + 1 ∧ cosineSimilarity a b + 1 ≤ 2 := by
  have habs : |cosineSimilarity a b| ≤ 1 := by
    unfold cosineSimilarity
    by_cases hd0 : Real.sqrt (dotProduct a a) * Real.sqrt (dotProduct b b) = 0
    · rw [hd0, div_zero]; norm_num
    · have hpos : 0 < Real.sqrt (dotProduct a a) * Real.sqrt (dotProduct b b) :=
        lt_of_le_of_ne
          (mul_nonneg (Real.sqrt_nonneg _) (Real.sqrt_nonneg _)) (Ne.symm hd0)
      rw [abs_div, abs_of_pos hpos, div_le_one hpos]
      calc |dotProduct a b| = Real.sqrt (dotProduct a b ^ 2) :=
            (Real.sqrt_sq_eq_abs _).symm
        _ ≤ Real.sqrt (dotProduct a a * dotProduct b b) :=
            Real.sqrt_le_sqrt (dotProduct_sq_le a b)
        _ = Real.sqrt (dotProduct a a) * Real.sqrt (dotProduct b b) :=
            Real.sqrt_mul (dotProduct_self_nonneg a) _
  rcases abs_le.mp habs with ⟨hlo, hhi⟩
  constructor <;> linarith

/-! ## VectorIndex: search (searchSimilarChunks, lines 80-112) and insert -/

/-- The search hit built from a stored entry: the _source projection of
content and filename, and the script score, cosine similarity to the
query vector shifted by +1.0. -/
noncomputable def mkSearchResult (queryVector : List ℝ) (e : IndexedEntry) :
    SearchResult :=
  { content := e.content, filename := e.filename,
    score := cosineSimilarity queryVector e.vector + 1 }

/-- Insert a result into a list sorted by non-increasing score. -/
noncomputable def insertByScore (r : SearchResult) :
    List SearchResult → List SearchResult
  | [] => [r]
  | x :: xs =>
    if x.score ≤ r.score then r :: x :: xs else x :: insertByScore r xs

/-- Sort results by non-increasing score. -/
noncomputable def sortByScoreDesc (l : List SearchResult) : List SearchResult :=
  l.foldr insertByScore []

/-- Modelled from the spec: the Elasticsearch query of searchSimilarChunks
(script_score over match_all with size topK), which the repository only
issues, returns the stored entries scored by shifted cosine similarity,
ordered by descending score, truncated to topK. -/
noncomputable def rankChunks (queryVector : List ℝ) (entries : List IndexedEntry)
    (topK : Nat) : List SearchResult :=
  (sortByScoreDesc (entries.map (mkSearchResult queryVector))).take topK

/-- Default topK of searchSimilarChunks in the source (line 80). -/
def defaultTopK : Nat := 5

/-- searchSimilarChunks: await getEmbeddings on the query (its outcome is
the queryEmbedding argument), then the Elasticsearch search call (its
availability is the esSearchOutcome argument), then map the hits; the
surrounding try/catch logs and rethrows, so each failure propagates. -/
noncomputable def searchSimilarChunks
    (queryEmbedding : Except EmbeddingServiceError (List ℝ))
    (esSearchOutcome : Except IndexError Unit)
    (entries : List IndexedEntry) (topK : Nat) :
    Except PipelineError (List SearchResult) :=
  match queryEmbedding with
  | .error e => .error (.embedErr e)
  | .ok qv =>
    match esSearchOutcome with
    | .error f => .error (.indexErr f)
    | .ok _ => .ok (rankChunks qv entries topK)

/-- searchSimilarChunks with its defaulted topK parameter. -/
noncomputable def searchSimilarChunksDefault
    (queryEmbedding : Except EmbeddingServiceError (List ℝ))
    (esSearchOutcome : Except IndexError Unit)
    (entries : List IndexedEntry) : Except PipelineError (List SearchResult) :=
  searchSimilarChunks queryEmbedding esSearchOutcome entries defaultTopK

/-- Replace the entry with the same id, or append when the id is new. -/
def upsertById (idx : List IndexedEntry) (e : IndexedEntry) :
    List IndexedEntry :=
  if idx.any (fun x => x.id = e.id) then
    idx.map (fun x => if x.id = e.id then e else x)
  else idx ++ [e]

/-- Modelled from the spec: the per-entry insert of the documents index.
The repository's esClient.index call upserts by id; the dense_vector
mapping (dims 384) makes Elasticsearch reject a vector of any other
length, which the spec names DimensionMismatchError. -/
def insert (idx : List IndexedEntry) (e : IndexedEntry) :
    Except IndexError (List IndexedEntry) :=
  if e.vector.length = embeddingDims then .ok (upsertById idx e)
  else .error .dimensionMismatch

lemma mem_insertByScore {a r : SearchResult} :
    ∀ {l : List SearchResult}, a ∈ insertByScore r l ↔ a = r ∨ a ∈ l := by
  intro l
  induction l with
  | nil => simp [insertByScore]
  | cons x xs ih =>
    by_cases h : x.score ≤ r.score
    · simp [insertByScore, h]
    · simp only [insertByScore, if_neg h, List.mem_cons, ih]
      tauto

lemma sorted_insertByScore (r : SearchResult) :
    ∀ {l : List SearchResult},
      l.Pairwise (fun a b => b.score ≤ a.score) →
      (insertByScore r l).Pairwise (fun a b => b.score ≤ a.score) := by
  intro l
  induction l with
  | nil => intro _; simp [insertByScore]
  | cons x xs ih =>
    intro hp
    rcases List.pairwise_cons.mp hp with ⟨hx, hxs⟩
    by_cases h : x.score ≤ r.score
    · rw [insertByScore, if_pos h]
      refine List.pairwise_cons.mpr ⟨?_, hp⟩
      intro b hb
      rcases List.mem_cons.mp hb with rfl | hbxs
      · exact h
      · exact le_trans (hx b hbxs) h
    · rw [insertByScore, if_neg h]
      refine List.pairwise_cons.mpr ⟨?_, ih hxs⟩
      intro b hb
      rcases mem_insertByScore.mp hb with rfl | hbxs
      · exact le_of_lt (lt_of_not_le h)
      · exact hx b hbxs

lemma sorted_sortByScoreDesc (l : List SearchResult) :
    (sortByScoreDesc l).Pairwise (fun a b => b.score ≤ a.score) := by
  induction l with
  | nil => simp [sortByScoreDesc]
  | cons x xs ih => exact sorted_insertByScore x ih

lemma mem_sortByScoreDesc {a : SearchResult} :
    ∀ {l : List SearchResult}, a ∈ sortByScoreDesc l ↔ a ∈ l := by
  intro l
  induction l with
  | nil => simp [sortByScoreDesc]
  | cons x xs ih =>
    show a ∈ insertByScore x (sortByScoreDesc xs) ↔ _
    rw [mem_insertByScore]
    simp [ih]

lemma length_insertByScore (r : SearchResult) :
    ∀ l : List SearchResult, (insertByScore r l).length = l.length + 1 := by
  intro l
  induction l with
  | nil => rfl
  | cons x xs ih =>
    by_cases h : x.score ≤ r.score
    · rw [insertByScore, if_pos h]; rfl
    · rw [insertByScore, if_neg h]
      simp [ih]

lemma length_sortByScoreDesc :
    ∀ l : List SearchResult, (sortByScoreDesc l).length = l.length := by
  intro l
  induction l with
  | nil => rfl
  | cons x xs ih =>
    show (insertByScore x (sortByScoreDesc xs)).length = _
    rw [length_insertByScore, ih]
    rfl

/-- C2: for every query vector and topK > 0, the search returns at most
topK results, sorted by non-increasing score, and each result is a stored
entry scored by cosine similarity to the query plus 1.0, a score inside
[0, 2]. -/
theorem searchSimilarChunks_ranked
    (queryVector : List ℝ) (entries : List IndexedEntry) (topK : Nat)
    (htopK : 0 < topK) :
    searchSimilarChunks (.ok queryVector) (.ok ()) entries topK =
      .ok (rankChunks queryVector entries topK) ∧
    (rankChunks queryVector entries topK).length ≤ topK ∧
    (rankChunks queryVector entries topK).Pairwise
      (fun a b => b.score ≤ a.score) ∧
    ∀ r ∈ rankChunks queryVector entries topK,
      (∃ e ∈ entries, r = mkSearchResult queryVector e) ∧
      0 ≤ r.score ∧ r.score ≤ 2 := by
  refine ⟨rfl, ?_, ?_, ?_⟩
  · rw [rankChunks, List.length_take]
    exact min_le_left _ _
  · exact List.Pairwise.sublist (List.take_sublist _ _)
      (sorted_sortByScoreDesc _)
  · intro r hr
    have hr2 : r ∈ sortByScoreDesc (entries.map (mkSearchResult queryVector)) :=
      List.take_subset _ _ hr
    have hr3 : r ∈ entries.map (mkSearchResult queryVector) :=
      mem_sortByScoreDesc.mp hr2
    rcases List.mem_map.mp hr3 with ⟨e, he, hre⟩
    refine ⟨⟨e, he, hre.symm⟩, ?_, ?_⟩
    · rw [← hre]
      exact (cosineSimilarity_shift_bounds queryVector e.vector).1
    · rw [← hre]
      exact (cosineSimilarity_shift_bounds queryVector e.vector).2

/-- Witness for C2 at a concrete input. -/
theorem searchSimilarChunks_ranked_witness :
    0 < 1 ∧ searchSimilarChunks (.ok []) (.ok ()) [] 1 =
      .ok (rankChunks [] [] 1) :=
  ⟨by decide, (searchSimilarChunks_ranked [] [] 1 (by decide)).1⟩

lemma mem_upsertById {x e : IndexedEntry} {idx : List IndexedEntry}
    (hx : x ∈ upsertById idx e) : x = e ∨ x ∈ idx := by
  unfold upsertById at hx
  by_cases h : idx.any (fun y => y.id = e.id)
  · rw [if_pos h] at hx
    rcases List.mem_map.mp hx with ⟨y, hy, hxy⟩
    by_cases hid : y.id = e.id
    · left; rw [← hxy, if_pos hid]
    · right; rw [← hxy, if_neg hid]; exact hy
  · rw [if_neg h] at hx
    rcases List.mem_append.mp hx with hmem | hmem
    · right; exact hmem
    · left; simpa using hmem

/-- C3: insert rejects a vector whose length differs from the fixed
dimension 384 with DimensionMismatchError, storing nothing, and insert
preserves the invariant that every stored vector has exactly 384
components. -/
theorem insert_dimension_invariant (idx : List IndexedEntry) (e : IndexedEntry) :
    (e.vector.length ≠ embeddingDims →
      insert idx e = .error .dimensionMismatch) ∧
    (∀ idx2, insert idx e = .ok idx2 →
      (∀ x ∈ idx, x.vector.length = embeddingDims) →
      ∀ x ∈ idx2, x.vector.length = embeddingDims) := by
  constructor
  · intro h
    rw [insert, if_neg h]
  · intro idx2 hok hinv x hx
    by_cases h : e.vector.length = embeddingDims
    · rw [insert, if_pos h] at hok
      have hidx2 : idx2 = upsertById idx e := by
        injection hok with h2; exact h2.symm
      rw [hidx2] at hx
      rcases mem_upsertById hx with rfl | hmem
      · exact h
      · exact hinv x hmem
    · rw [insert, if_neg h] at hok
      cases hok

/-- A concrete entry with a wrong-dimension vector. -/
noncomputable def badEntry : IndexedEntry :=
  { id := "doc_chunk_0", vector := List.replicate 5 0, content := ['a'],
    filename := "doc", chunk_id := 0 }

/-- A concrete entry with a correctly-dimensioned vector. -/
noncomputable def goodEntry : IndexedEntry :=
  { id := "doc_chunk_0", vector := List.replicate 384 0, content := ['a'],
    filename := "doc", chunk_id := 0 }

/-- Witness for C3 at concrete inputs. -/
theorem insert_dimension_invariant_witness :
    badEntry.vector.length ≠ embeddingDims ∧
    insert [] badEntry = .error .dimensionMismatch ∧
    insert [] goodEntry = .ok [goodEntry] ∧
    ∀ x ∈ ([goodEntry] : List IndexedEntry),
      x.vector.length = embeddingDims := by
  have hbad : badEntry.vector.length ≠ embeddingDims := by
    show (List.replicate 5 (0:ℝ)).length ≠ embeddingDims
    rw [List.length_replicate]
    decide
  have hgood : goodEntry.vector.length = embeddingDims := by
    show (List.replicate 384 (0:ℝ)).length = embeddingDims
    rw [List.length_replicate]
    rfl
  refine ⟨hbad, (insert_dimension_invariant [] badEntry).1 hbad, ?_, ?_⟩
  · rw [insert, if_pos hgood]
    rfl
  · intro x hx
    rcases List.mem_singleton.mp hx with rfl
    exact hgood

/-! ## Ingestion: indexDocument (documentController.js lines 54-78) -/

/-- The entry indexDocument stores for chunk i of a file: id
filename_chunk_i, the chunk text as content and the embedding vector. -/
def mkEntry (filename : String) (i : Nat) (content : List Char)
    (vector : List ℝ) : IndexedEntry :=
  { id := filename ++ "_chunk_" ++ toString i, vector := vector,
    content := content, filename := filename, chunk_id := i }

/-- The chunk loop of indexDocument: for each chunk in order, await the
embedding, then the index call; the first failure stops the loop and is
rethrown, entries already inserted staying in the index. -/
def indexDocumentLoop (embed : List Char → Except EmbeddingServiceError (List ℝ))
    (filename : String) :
    List (List Char) → Nat → List IndexedEntry →
    List IndexedEntry × Option PipelineError
  | [], _, idx => (idx, none)
  | c :: rest, i, idx =>
    match embed c with
    | .error e => (idx, some (.embedErr e))
    | .ok v =>
      match insert idx (mkEntry filename i c v) with
      | .error f => (idx, some (.indexErr f))
      | .ok idx2 => indexDocumentLoop embed filename rest (i + 1) idx2

/-- indexDocument: run the chunk loop from ordinal 0, then refresh the
index; any error is logged and rethrown. -/
def indexDocument (embed : List Char → Except EmbeddingServiceError (List ℝ))
    (chunks : List (List Char)) (filename : String)
    (idx : List IndexedEntry) (refreshOutcome : Except IndexError Unit) :
    List IndexedEntry × Option PipelineError :=
  match indexDocumentLoop embed filename chunks 0 idx with
  | (idx2, none) =>
    match refreshOutcome with
    | .error f => (idx2, some (.indexErr f))
    | .ok _ => (idx2, none)
  | r => r

/-- A chunk's embed-and-insert step succeeds: the embedding call returns a
vector of the index dimension. -/
def chunkOk (embed : List Char → Except EmbeddingServiceError (List ℝ))
    (c : List Char) : Bool :=
  match embed c with
  | .ok v => v.length = embeddingDims
  | .error _ => false

/-- Number of leading chunks whose step succeeds. -/
def successCount (embed : List Char → Except EmbeddingServiceError (List ℝ))
    (chunks : List (List Char)) : Nat :=
  (chunks.takeWhile (chunkOk embed)).length

/-- The embedding a chunk receives (garbage on a failed embed; only ever
read for successful chunks). -/
def embedVal (embed : List Char → Except EmbeddingServiceError (List ℝ))
    (c : List Char) : List ℝ :=
  match embed c with
  | .ok v => v
  | .error _ => []

/-- The error a failing chunk's step produces: the embedding error, or
the dimension mismatch from the index call. -/
def stepError (embed : List Char → Except EmbeddingServiceError (List ℝ))
    (c : List Char) : PipelineError :=
  match embed c with
  | .error e => .embedErr e
  | .ok _ => .indexErr .dimensionMismatch

/-- The entries indexDocument builds for a chunk list, ordinals starting
at i. -/
def entriesFrom (embed : List Char → Except EmbeddingServiceError (List ℝ))
    (filename : String) : Nat → List (List Char) → List IndexedEntry
  | _, [] => []
  | i, c :: rest =>
    mkEntry filename i c (embedVal embed c) ::
      entriesFrom embed filename (i + 1) rest

lemma successCount_cons (embed : List Char → Except EmbeddingServiceError (List ℝ))
    (c : List Char) (rest : List (List Char)) :
    successCount embed (c :: rest) =
      if chunkOk embed c then successCount embed rest + 1 else 0 := by
  unfold successCount
  rw [List.takeWhile_cons]
  by_cases h : chunkOk embed c
  · rw [if_pos h, if_pos h]
    rfl
  · rw [if_neg h, if_neg h]
    rfl

/-- Closed form of the ingestion loop: it upserts the entries of the
longest successful prefix in order, and stops with the first failing
chunk's error, if any. -/
lemma indexDocumentLoop_eq
    (embed : List Char → Except EmbeddingServiceError (List ℝ))
    (filename : String) :
    ∀ (chunks : List (List Char)) (i : Nat) (idx : List IndexedEntry),
      indexDocumentLoop embed filename chunks i idx =
        (List.foldl upsertById idx
          (entriesFrom embed filename i
            (chunks.take (successCount embed chunks))),
         match (chunks.drop (successCount embed chunks)).head? with
         | some c => some (stepError embed c)
         | none => none) := by
  intro chunks
  induction chunks with
  | nil =>
    intro i idx
    simp [indexDocumentLoop, successCount, entriesFrom]
  | cons c rest ih =>
    intro i idx
    rcases hemb : embed c with e | v
    · have hok : chunkOk embed c = false := by
        unfold chunkOk
        rw [hemb]
      rw [successCount_cons, hok]
      simp only [if_false, Bool.false_eq_true]
      have hstep : indexDocumentLoop embed filename (c :: rest) i idx =
          (idx, some (PipelineError.embedErr e)) := by
        rw [indexDocumentLoop, hemb]
      rw [hstep]
      simp [List.take_zero, entriesFrom, List.drop_zero, List.head?,
        stepError, hemb]
    · by_cases hdim : v.length = embeddingDims
      · have hok : chunkOk embed c = true := by
          unfold chunkOk
          rw [hemb]
          simp [hdim]
        have hdim2 : (mkEntry filename i c v).vector.length = embeddingDims :=
          hdim
        have hins : insert idx (mkEntry filename i c v) =
            .ok (upsertById idx (mkEntry filename i c v)) := by
          rw [insert, if_pos hdim2]
        have hval : embedVal embed c = v := by
          unfold embedVal; rw [hemb]
        rw [successCount_cons, hok]
        simp only [if_true]
        have hstep : indexDocumentLoop embed filename (c :: rest) i idx =
            indexDocumentLoop embed filename rest (i + 1)
              (upsertById idx (mkEntry filename i c v)) := by
          rw [indexDocumentLoop, hemb]
          show (match insert idx (mkEntry filename i c v) with
            | Except.error f => (idx, some (PipelineError.indexErr f))
            | Except.ok idx2 =>
              indexDocumentLoop embed filename rest (i + 1) idx2) = _
          rw [hins]
        rw [hstep, ih]
        rw [List.take_succ_cons, List.drop_succ_cons]
        rw [entriesFrom, hval]
        rfl
      · have hok : chunkOk embed c = false := by
          unfold chunkOk
          rw [hemb]
          simp [hdim]
        have hdim2 : ¬ (mkEntry filename i c v).vector.length = embeddingDims :=
          hdim
        have hins : insert idx (mkEntry filename i c v) =
            .error .dimensionMismatch := by
          rw [insert, if_neg hdim2]
        rw [successCount_cons, hok]
        simp only [if_false, Bool.false_eq_true]
        have hstep : indexDocumentLoop embed filename (c :: rest) i idx =
            (idx, some (PipelineError.indexErr IndexError.dimensionMismatch)) := by
          rw [indexDocumentLoop, hemb]
          show (match insert idx (mkEntry filename i c v) with
            | Except.error f => (idx, some (PipelineError.indexErr f))
            | Except.ok idx2 =>
              indexDocumentLoop embed filename rest (i + 1) idx2) = _
          rw [hins]
        rw [hstep]
        simp [List.take_zero, entriesFrom, List.drop_zero, List.head?,
          stepError, hemb]

lemma entriesFrom_get
    (embed : List Char → Except EmbeddingServiceError (List ℝ))
    (filename : String) :
    ∀ (chunks : List (List Char)) (i j : Nat),
      (entriesFrom embed filename i chunks).get? j =
        (chunks.get? j).map
          (fun c => mkEntry filename (i + j) c (embedVal embed c)) := by
  intro chunks
  induction chunks with
  | nil => intro i j; simp [entriesFrom]
  | cons c rest ih =>
    intro i j
    cases j with
    | zero => simp [entriesFrom]
    | succ j =>
      have h1 : (entriesFrom embed filename i (c :: rest)).get? (j + 1) =
          (entriesFrom embed filename (i + 1) rest).get? j := rfl
      have h2 : (c :: rest).get? (j + 1) = rest.get? j := rfl
      rw [h1, h2, ih (i + 1) j]
      have h3 : i + 1 + j = i + (j + 1) := by omega
      rw [h3]

/-- C4: indexDocument processes chunks strictly in input order, upserting
for the longest successful prefix the entry of each chunk with ordinal
equal to its position (chunk_id j and id filename_chunk_j for position j),
and stops at the first failing embed or insert step, propagating that
chunk's error to the caller while the earlier entries remain; when every
chunk succeeds the only remaining failure is the final refresh. -/
theorem indexDocument_ordered
    (embed : List Char → Except EmbeddingServiceError (List ℝ))
    (chunks : List (List Char)) (filename : String)
    (idx : List IndexedEntry) (refreshOutcome : Except IndexError Unit) :
    indexDocument embed chunks filename idx refreshOutcome =
      (List.foldl upsertById idx
        (entriesFrom embed filename 0
          (chunks.take (successCount embed chunks))),
       match (chunks.drop (successCount embed chunks)).head? with
       | some c => some (stepError embed c)
       | none =>
         match refreshOutcome with
         | .error f => some (.indexErr f)
         | .ok _ => none) ∧
    ∀ j, (entriesFrom embed filename 0 chunks).get? j =
      (chunks.get? j).map
        (fun c => mkEntry filename j c (embedVal embed c)) := by
  constructor
  · unfold indexDocument
    rw [indexDocumentLoop_eq]
    rcases hh : (chunks.drop (successCount embed chunks)).head? with _ | c
    · rcases refreshOutcome with f | u <;> rfl
    · rfl
  · intro j
    have := entriesFrom_get embed filename chunks 0 j
    simpa using this

/-! ## Embedder: getEmbeddings (documentController.js lines 5-28) -/

/-- A JSON value as the embedding response delivers it (numbers modelled
as integers: only the shape of the payload matters to any claim). -/
inductive JsonValue
  | null
  | num (n : Int)
  | str (s : String)
  | arr (elems : List JsonValue)

/-- The awaited fetch response: its ok flag and status, and the outcome
of response.json() (which rejects when the body is not valid JSON). -/
structure HttpResponse where
  ok : Bool
  status : Nat
  json : Except String JsonValue

/-- getEmbeddings on an awaited response: throw on a non-ok status, then
return the parsed JSON body unchanged; the catch logs and rethrows. -/
def getEmbeddings (resp : HttpResponse) :
    Except EmbeddingServiceError JsonValue :=
  if resp.ok = false then .error (.httpError resp.status)
  else
    match resp.json with
    | .error m => .error (.jsonError m)
    | .ok v => .ok v

/-- A JSON number leaf. -/
def isNumber : JsonValue → Bool
  | .num _ => true
  | _ => false

/-- The payload shape the spec calls a valid embedding: a sequence of
exactly embeddingDims numbers. -/
def isEmbeddingVector : JsonValue → Bool
  | .arr elems => elems.length = embeddingDims && elems.all isNumber
  | _ => false

/-- A success response whose JSON payload is not a vector at all. -/
def malformedResponse : HttpResponse :=
  { ok := true, status := 200, json := .ok (.str "unexpected") }

/-- C5: the claim that getEmbeddings raises an error on a malformed (non
vector-of-384-numbers) payload is false on the code: a success-status
response whose JSON body is a bare string is returned as a value, with no
shape validation at all. -/
theorem getEmbeddings_no_payload_validation :
    getEmbeddings malformedResponse = .ok (.str "unexpected") ∧
    isEmbeddingVector (.str "unexpected") = false := by
  exact ⟨rfl, rfl⟩

/-- C5 (amended): getEmbeddings raises EmbeddingServiceError on a
non-success status (and on a body that is not valid JSON) and the failure
propagates to the caller; no fallback vector ever replaces an error (every
ok result is the response payload verbatim); but the payload's shape is
not validated: a success response's JSON body is returned as-is. -/
theorem getEmbeddings_error_propagation (resp : HttpResponse) :
    (resp.ok = false → getEmbeddings resp = .error (.httpError resp.status)) ∧
    (∀ m, resp.ok = true → resp.json = .error m →
      getEmbeddings resp = .error (.jsonError m)) ∧
    (∀ v, resp.ok = true → resp.json = .ok v →
      getEmbeddings resp = .ok v) ∧
    (∀ w, getEmbeddings resp = .ok w → resp.json = .ok w) := by
  refine ⟨?_, ?_, ?_, ?_⟩
  · intro h
    rw [getEmbeddings, if_pos h]
  · intro m hok hjson
    rw [getEmbeddings, if_neg (by rw [hok]; simp), hjson]
  · intro v hok hjson
    rw [getEmbeddings, if_neg (by rw [hok]; simp), hjson]
  · intro w h
    by_cases hok : resp.ok = false
    · rw [getEmbeddings, if_pos hok] at h
      cases h
    · rw [getEmbeddings, if_neg hok] at h
      rcases hjson : resp.json with m | v
      · rw [hjson] at h
        cases h
      · rw [hjson] at h
        injection h with h2
        rw [h2]

/-- A concrete failed response. -/
def failedResponse : HttpResponse :=
  { ok := false, status := 503, json := .ok .null }

/-- Witness for the amended C5 at a concrete input. -/
theorem getEmbeddings_error_propagation_witness :
    failedResponse.ok = false ∧
    getEmbeddings failedResponse = .error (.httpError 503) :=
  ⟨rfl, (getEmbeddings_error_propagation failedResponse).1 rfl⟩

/-! ## Query route (ragRoutes.js lines 77-113) -/

/-- The canned answer of the query route when no chunk is relevant. -/
def noRelevantInfoMessage : String :=
  "I couldn't find any relevant information in the uploaded documents."

/-- A source reference of the query response: filename, a 200-character
snippet with an ellipsis, and the score. -/
structure SourceRef where
  filename : String
  snippet : List Char
  score : ℝ

/-- The JSON body the query route answers with. -/
structure QueryResponse where
  answer : String
  sources : List SourceRef

/-- The /query handler after validation: search with topK 3; on zero
relevant chunks answer the canned message with no sources and without
calling the generator; otherwise answer generate's text with the mapped
sources. The generator is the abstract Gemini collaborator. -/
noncomputable def handleQuery (entries : List IndexedEntry)
    (queryVector : List ℝ)
    (generate : String → List SearchResult → String) (question : String) :
    QueryResponse :=
  let relevantChunks := rankChunks queryVector entries 3
  if relevantChunks.length = 0 then
    { answer := noRelevantInfoMessage, sources := [] }
  else
    { answer := generate question relevantChunks,
      sources := relevantChunks.map (fun c =>
        { filename := c.filename,
          snippet := c.content.take 200 ++ ['.', '.', '.'],
          score := c.score }) }

/-- C6: search over an empty index returns an empty sequence (not an
error), and the query route then returns the canned no-relevant-information
response with no sources; the response is the same for every generator,
so the answer-generation collaborator is never consulted. -/
theorem emptyIndex_search_and_query (queryVector : List ℝ) (topK : Nat)
    (g g2 : String → List SearchResult → String) (question : String) :
    rankChunks queryVector [] topK = [] ∧
    searchSimilarChunks (.ok queryVector) (.ok ()) [] topK = .ok [] ∧
    handleQuery [] queryVector g question =
      { answer := noRelevantInfoMessage, sources := [] } ∧
    handleQuery [] queryVector g question =
      handleQuery [] queryVector g2 question := by
  have hempty : ∀ k : Nat, rankChunks queryVector [] k = [] := by
    intro k
    unfold rankChunks sortByScoreDesc
    simp
  refine ⟨hempty topK, ?_, ?_, ?_⟩
  · show Except.ok (rankChunks queryVector [] topK) = .ok []
    rw [hempty topK]
  · unfold handleQuery
    rw [hempty 3]
    rfl
  · unfold handleQuery
    rw [hempty 3]
    rfl

/-! ## Error propagation (C8) and topK default (C9) -/

/-- initializeElasticsearch: check index existence and create the mapping
when absent; the catch block only logs, so every failure of the exists
check or of the create call is suppressed and the function resolves. -/
def initializeElasticsearch (existsOutcome : Except IndexError Bool)
    (createOutcome : Except IndexError Unit) : Except IndexError Unit :=
  match existsOutcome with
  | .error _ => .ok ()
  | .ok true => .ok ()
  | .ok false =>
    match createOutcome with
    | .error _ => .ok ()
    | .ok _ => .ok ()

/-- C8: the claim that no pipeline operation suppresses an index error is
false on the code: initializeElasticsearch's catch block swallows a
failing schema-creation path (here the exists check fails with
unavailable) and resolves successfully. -/
theorem initializeElasticsearch_swallows_error :
    initializeElasticsearch (.error .unavailable) (.ok ()) = .ok () := rfl

/-- C8 (amended): getEmbeddings, indexDocument and searchSimilarChunks
propagate every Embedder and VectorIndex failure to their callers
(getEmbeddings returns the HTTP error, search returns the embed or index
error, ingestion ends in an error whenever any chunk's step fails), but
initializeElasticsearch catches schema-creation errors and always
resolves successfully. -/
theorem pipeline_error_propagation :
    (∀ resp : HttpResponse, resp.ok = false →
      getEmbeddings resp = .error (.httpError resp.status)) ∧
    (∀ (e : EmbeddingServiceError) (es : Except IndexError Unit)
        (entries : List IndexedEntry) (topK : Nat),
      searchSimilarChunks (.error e) es entries topK =
        .error (.embedErr e)) ∧
    (∀ (qv : List ℝ) (f : IndexError)
        (entries : List IndexedEntry) (topK : Nat),
      searchSimilarChunks (.ok qv) (.error f) entries topK =
        .error (.indexErr f)) ∧
    (∀ (embed : List Char → Except EmbeddingServiceError (List ℝ))
        (chunks : List (List Char)) (filename : String)
        (idx : List IndexedEntry) (refreshOutcome : Except IndexError Unit),
      successCount embed chunks < chunks.length →
      (indexDocument embed chunks filename idx refreshOutcome).2 ≠ none) ∧
    (∀ (existsOutcome : Except IndexError Bool)
        (createOutcome : Except IndexError Unit),
      initializeElasticsearch existsOutcome createOutcome = .ok ()) := by
  refine ⟨?_, ?_, ?_, ?_, ?_⟩
  · intro resp h
    rw [getEmbeddings, if_pos h]
  · intro e es entries topK
    rfl
  · intro qv f entries topK
    rfl
  · intro embed chunks filename idx refreshOutcome hlt
    have hfail : (chunks.drop (successCount embed chunks)).head? ≠ none := by
      intro hnone
      rw [List.head?_eq_none_iff] at hnone
      have := List.drop_eq_nil_iff.mp hnone
      omega
    unfold indexDocument
    rw [indexDocumentLoop_eq]
    rcases hh : (chunks.drop (successCount embed chunks)).head? with _ | c
    · exact absurd hh hfail
    · simp
  · intro existsOutcome createOutcome
    rcases existsOutcome with e | b
    · rfl
    · rcases b with _ | _
      · rcases createOutcome with e | u <;> rfl
      · rfl

/-- An embedding function that always fails, for the C8 witness. -/
def alwaysFailEmbed : List Char → Except EmbeddingServiceError (List ℝ) :=
  fun _ => .error (.httpError 500)

/-- Witness for the amended C8 at concrete inputs. -/
theorem pipeline_error_propagation_witness :
    successCount alwaysFailEmbed [['a']] < 1 ∧
    (indexDocument alwaysFailEmbed [['a']] "f" [] (.ok ())).2 ≠ none := by
  have h : successCount alwaysFailEmbed [['a']] < 1 := by
    show (List.takeWhile (chunkOk alwaysFailEmbed) [['a']]).length < 1
    rw [List.takeWhile_cons]
    rw [if_neg (by show ¬ (chunkOk alwaysFailEmbed ['a'] = true); rw [chunkOk]; simp [alwaysFailEmbed])]
    decide
  exact ⟨h, (pipeline_error_propagation).2.2.2.1
    alwaysFailEmbed [['a']] "f" [] (.ok ()) h⟩

/-- Entries for the C9 counterexample (content, vectors and ids are
irrelevant to the returned length). -/
noncomputable def exEntries : List IndexedEntry :=
  [{ id := "a", vector := [1], content := ['x'], filename := "f", chunk_id := 0 },
   { id := "b", vector := [1], content := ['x'], filename := "f", chunk_id := 1 },
   { id := "c", vector := [1], content := ['x'], filename := "f", chunk_id := 2 },
   { id := "d", vector := [1], content := ['x'], filename := "f", chunk_id := 3 }]

/-- C9: the claim that the search operation defaults topK to 3 is false
on the code: searchSimilarChunks's own default is 5, and with its
defaulted parameter it returns 4 results on a 4-entry index, more than a
topK of 3 would allow. -/
theorem searchSimilarChunksDefault_not_three :
    searchSimilarChunksDefault (.ok [1]) (.ok ()) exEntries =
      .ok (rankChunks [1] exEntries 5) ∧
    (rankChunks [1] exEntries 5).length = 4 ∧
    ¬ (rankChunks [1] exEntries 5).length ≤ 3 := by
  have hlen : (rankChunks [1] exEntries 5).length = 4 := by
    rw [rankChunks, List.length_take, length_sortByScoreDesc,
      List.length_map]
    rfl
  refine ⟨rfl, hlen, ?_⟩
  rw [hlen]
  decide

/-- C9 (amended): the query route always passes topK = 3 to the search
(the HTTP caller supplies no topK), so a query response cites at most 3
sources; searchSimilarChunks's own defaulted topK is 5. -/
theorem query_route_topK
    (queryEmbedding : Except EmbeddingServiceError (List ℝ))
    (esSearchOutcome : Except IndexError Unit)
    (entries : List IndexedEntry) (queryVector : List ℝ)
    (g : String → List SearchResult → String) (question : String) :
    searchSimilarChunksDefault queryEmbedding esSearchOutcome entries =
      searchSimilarChunks queryEmbedding esSearchOutcome entries 5 ∧
    (handleQuery entries queryVector g question).sources.length ≤ 3 := by
  constructor
  · rfl
  · unfold handleQuery
    by_cases h : (rankChunks queryVector entries 3).length = 0
    · rw [if_pos h]
      simp
    · rw [if_neg h]
      show ((rankChunks queryVector entries 3).map _).length ≤ 3
      rw [List.length_map, rankChunks, List.length_take]
      exact min_le_left _ _

end FinSight
